import Mathlib

/-!
Verification development for the calculator STDIO server repository
(yigitkonur/example-mcp-server-stdio).

The repository contains two families of server implementations:

* an SDK-based variant (src/server.ts, and the richer annotated variant of the
  same file shipped alongside it, called the "Mcp" variant below), which keeps
  the calculation history either in an insertion-ordered array with an explicit
  FIFO cap (the annotated variant, function addToHistory) or in an
  insertion-ordered Map with the cap enforced only inside the calculate handler
  (src/server.ts);
* a hand-rolled newline-delimited JSON-RPC variant (src/server-stdio.js, the
  "Stdio" variant below), which frames stdin by newlines, dispatches on the
  method string, keeps history in a Map with no cap at all, and maps every
  thrown exception to a JSON-RPC error with code -32603 carrying the raw
  exception message.

Numbers are modelled as rationals (JavaScript float rounding is abstracted
away; none of the proved properties depends on rounding). The values produced
by Math.random (history-entry id tokens) and Date (timestamps) are modelled as
explicit inputs, since the source computes the entries as pure data from those
draws. Strings printed from numbers use Lean's toString; the exact digit
rendering is irrelevant to every statement below.
-/

/-- JSON-RPC / MCP error code for invalid params, as used by the SDK's
McpError(ErrorCode.InvalidParams, ...) in the annotated server variant. -/
def errorCodeInvalidParams : Int := -32602

/-- JSON-RPC internal error code; src/server-stdio.js sends every handler
exception with this code (sendError(id, -32603, error.message)). -/
def errorCodeInternalError : Int := -32603

deriving instance DecidableEq for Except

/-- A structured error as thrown by the annotated SDK variant
(McpError with a code and a message). -/
structure McpErr where
  code : Int
  message : String
deriving DecidableEq, Repr

/-- From the annotated server variant, function performBasicCalculation:
switch on the operation string; divide-by-zero and unknown operations throw
McpError(ErrorCode.InvalidParams, ...). -/
def performBasicCalculation (op : String) (a b : ℚ) : Except McpErr ℚ :=
  if op = "add" then .ok (a + b)
  else if op = "subtract" then .ok (a - b)
  else if op = "multiply" then .ok (a * b)
  else if op = "divide" then
    if b = 0 then .error ⟨errorCodeInvalidParams, "Division by zero"⟩
    else .ok (a / b)
  else .error ⟨errorCodeInvalidParams, "Unknown operation: " ++ op⟩

/-- From src/server.ts performBasicCalculation and the inline switch of
src/server-stdio.js handleCalculate/handleBatchCalculate: same branches, but
failures are plain Error objects carrying only a message string. -/
def performBasicCalculationJs (op : String) (a b : ℚ) : Except String ℚ :=
  if op = "add" then .ok (a + b)
  else if op = "subtract" then .ok (a - b)
  else if op = "multiply" then .ok (a * b)
  else if op = "divide" then
    if b = 0 then .error "Division by zero"
    else .ok (a / b)
  else .error ("Unknown operation: " ++ op)

/-- History entry record (src/types.ts interface CalculationHistory /
HistoryEntry). -/
structure HistoryEntry where
  id : String
  timestamp : String
  operation : String
  input_1 : ℚ
  input_2 : Option ℚ
  result : ℚ
  expression : String
deriving DecidableEq, Repr

/-- Helper mirroring JS template interpolation of a possibly-undefined
number. -/
def optNumStr : Option ℚ → String
  | some q => toString q
  | none => "undefined"

/-- From src/types.ts formatExpression (same function in the annotated
variant). The JS truthiness test on b in the log branch treats both
undefined and 0 as falsy. -/
def formatExpression (operation : String) (a : ℚ) (b : Option ℚ) (result : ℚ) :
    String :=
  if operation = "add" then
    toString a ++ " + " ++ optNumStr b ++ " = " ++ toString result
  else if operation = "subtract" then
    toString a ++ " - " ++ optNumStr b ++ " = " ++ toString result
  else if operation = "multiply" then
    toString a ++ " × " ++ optNumStr b ++ " = " ++ toString result
  else if operation = "divide" then
    toString a ++ " ÷ " ++ optNumStr b ++ " = " ++ toString result
  else if operation = "factorial" then
    toString a ++ "! = " ++ toString result
  else if operation = "log" then
    match b with
    | some bb =>
        if bb = 0 then "ln(" ++ toString a ++ ") = " ++ toString result
        else "log" ++ toString bb ++ "(" ++ toString a ++ ") = " ++ toString result
    | none => "ln(" ++ toString a ++ ") = " ++ toString result
  else if operation = "combinations" then
    "C(" ++ toString a ++ ", " ++ optNumStr b ++ ") = " ++ toString result
  else if operation = "permutations" then
    "P(" ++ toString a ++ ", " ++ optNumStr b ++ ") = " ++ toString result
  else
    operation ++ "(" ++ toString a ++
      (match b with | some bb => ", " ++ toString bb | none => "") ++
      ") = " ++ toString result

/-- From src/types.ts createHistoryEntry (same in the annotated variant).
The id token (derived in source from Math.random().toString(36).substring(7))
and the ISO timestamp (from new Date()) are modelled as explicit arguments:
the source applies no uniqueness check of any kind to the token. -/
def createHistoryEntry (operation : String) (a : ℚ) (b : Option ℚ) (result : ℚ)
    (idTok timestampStr : String) : HistoryEntry :=
  { id := idTok
    timestamp := timestampStr
    operation := operation
    input_1 := a
    input_2 := b
    result := result
    expression := formatExpression operation a b result }

/-- From the annotated server variant, constant MAX_HISTORY =
LIMITS.maxHistorySize. -/
def MAX_HISTORY : ℕ := 50

/-- From the annotated server variant, function addToHistory: push the entry,
then shift the oldest entry off the front when the capacity is exceeded. -/
def addToHistory (h : List HistoryEntry) (e : HistoryEntry) :
    List HistoryEntry :=
  let h1 := h ++ [e]
  if MAX_HISTORY < h1.length then h1.tail else h1

/-- Lookup used by the annotated variant's history resource read handler:
calculationHistory.find((h) => h.id === calculationId). -/
def findById (h : List HistoryEntry) (cid : String) : Option HistoryEntry :=
  h.find? (fun e => e.id == cid)

/-- JavaScript Map modelled as an insertion-ordered association list.
Map.prototype.set replaces the value in place when the key exists, and appends
at the end otherwise. -/
def mapSet (m : List (String × HistoryEntry)) (k : String) (v : HistoryEntry) :
    List (String × HistoryEntry) :=
  match m with
  | [] => [(k, v)]
  | (k1, v1) :: t => if k1 = k then (k, v) :: t else (k1, v1) :: mapSet t k v

/-- Map.prototype.get. -/
def mapGet (m : List (String × HistoryEntry)) (k : String) :
    Option HistoryEntry :=
  (m.find? (fun p => p.1 == k)).map Prod.snd

/-- src/server.ts history-limit enforcement: delete the first (oldest) key of
the insertion-ordered Map (calculationHistory.keys().next().value). -/
def mapDeleteOldest (m : List (String × HistoryEntry)) :
    List (String × HistoryEntry) :=
  m.tail

/-- One item of a batch_calculate request (after schema validation the fields
a, b, op are present). -/
structure CalcReq where
  a : ℚ
  b : ℚ
  op : String
deriving DecidableEq, Repr

/-- One per-item outcome of batch_calculate: either success carrying the
formatted expression, the value and the history id, or failure carrying the
expression text and the error message. -/
inductive BatchOutcome where
  | ok (expression : String) (value : ℚ) (calculationId : String)
  | fail (expression : String) (error : String)
deriving DecidableEq, Repr

/-- The success discriminant of a batch outcome. -/
def BatchOutcome.isSuccess : BatchOutcome → Bool
  | .ok _ _ _ => true
  | .fail _ _ => false

/-- Expression text used for failed batch items in both batch handlers
(template `a op b`). -/
def failExpr (c : CalcReq) : String :=
  toString c.a ++ " " ++ c.op ++ " " ++ toString c.b

/-- The per-item loop of the annotated SDK variant's batch_calculate handler:
each item runs performBasicCalculation; a success appends a history entry via
addToHistory (FIFO-capped array store); a thrown error is caught and recorded
as a failed outcome without aborting the loop. The index i feeds the id and
timestamp supplies for the entries created along the way. -/
def runBatchMcp (calcs : List CalcReq) (i : ℕ) (tok ts : ℕ → String)
    (h : List HistoryEntry) : List BatchOutcome × List HistoryEntry :=
  match calcs with
  | [] => ([], h)
  | c :: rest =>
    match performBasicCalculation c.op c.a c.b with
    | .ok r =>
        let e := createHistoryEntry c.op c.a (some c.b) r (tok i) (ts i)
        let p := runBatchMcp rest (i + 1) tok ts (addToHistory h e)
        (.ok e.expression r e.id :: p.1, p.2)
    | .error err =>
        let p := runBatchMcp rest (i + 1) tok ts h
        (.fail (failExpr c) err.message :: p.1, p.2)

/-- The annotated SDK variant's batch_calculate handler: the loop never
escapes an exception, so the tool reply is always a success result carrying
the per-item outcomes. -/
def batchCalculateHandlerMcp (calcs : List CalcReq) (tok ts : ℕ → String)
    (h : List HistoryEntry) :
    Except McpErr (List BatchOutcome) × List HistoryEntry :=
  let p := runBatchMcp calcs 0 tok ts h
  (.ok p.1, p.2)

/-- The annotated SDK variant's calculate handler (registerCoreTools): on
success it appends to the FIFO-capped array store and returns the value plus
meta; its catch block re-throws every error as
McpError(ErrorCode.InvalidParams, `Calculation failed: ` + error.message). -/
def calculateHandlerMcp (a b : ℚ) (op : String) (idTok ts : String)
    (h : List HistoryEntry) :
    Except McpErr (ℚ × String × String) × List HistoryEntry :=
  match performBasicCalculation op a b with
  | .ok r =>
      let e := createHistoryEntry op a (some b) r idTok ts
      (.ok (r, e.id, e.timestamp), addToHistory h e)
  | .error err =>
      (.error ⟨errorCodeInvalidParams,
               "Calculation failed: " ++ err.message⟩, h)

/-- Mutable globals of src/server-stdio.js: the Map-backed history (which that
file never prunes) and the request counter. -/
structure StdioState where
  history : List (String × HistoryEntry)
  requestCount : ℕ
deriving DecidableEq, Repr

/-- The per-item loop of src/server-stdio.js handleBatchCalculate: identical
control flow to the SDK variant's loop, but entries go into the Map store with
no capacity enforcement whatsoever. -/
def runBatchStdio (calcs : List CalcReq) (i : ℕ) (tok ts : ℕ → String)
    (h : List (String × HistoryEntry)) :
    List BatchOutcome × List (String × HistoryEntry) :=
  match calcs with
  | [] => ([], h)
  | c :: rest =>
    match performBasicCalculationJs c.op c.a c.b with
    | .ok r =>
        let e := createHistoryEntry c.op c.a (some c.b) r (tok i) (ts i)
        let p := runBatchStdio rest (i + 1) tok ts (mapSet h e.id e)
        (.ok e.expression r e.id :: p.1, p.2)
    | .error m =>
        let p := runBatchStdio rest (i + 1) tok ts h
        (.fail (failExpr c) m :: p.1, p.2)

/-- Result payloads of the src/server-stdio.js methods modelled here. -/
inductive RpcResult where
  | calc (value : ℚ) (calculationId : String) (timestamp : String)
  | batch (results : List BatchOutcome)
deriving DecidableEq, Repr

/-- Requests reaching src/server-stdio.js handleRequest. The
readResourceNoParams constructor is the concrete wire request with
jsonrpc 2.0, id 9, method read_resource and no params member, on which the
handler body dereferences params.uri and raises the V8 TypeError quoted in
dispatchStdio. -/
inductive Req where
  | calculate (a b : ℚ) (op : String)
  | batchCalculate (calcs : List CalcReq)
  | readResourceNoParams
  | unknown (method : String)
deriving DecidableEq, Repr

/-- The method dispatch switch inside src/server-stdio.js handleRequest, up to
but excluding the catch block: each branch either produces a result or raises
an exception carrying a message string. handleCalculate appends its history
entry to the Map store; the unknown-method default branch throws. -/
def dispatchStdio (r : Req) (tok ts : ℕ → String)
    (h : List (String × HistoryEntry)) :
    Except String RpcResult × List (String × HistoryEntry) :=
  match r with
  | .calculate a b op =>
      match performBasicCalculationJs op a b with
      | .error m => (.error m, h)
      | .ok v =>
          let e := createHistoryEntry op a (some b) v (tok 0) (ts 0)
          (.ok (.calc v e.id e.timestamp), mapSet h e.id e)
  | .batchCalculate calcs =>
      let p := runBatchStdio calcs 0 tok ts h
      (.ok (.batch p.1), p.2)
  | .readResourceNoParams =>
      (.error "Cannot read properties of undefined (reading \u0027uri\u0027)", h)
  | .unknown m => (.error ("Unknown method: " ++ m), h)

/-- One outgoing JSON-RPC envelope of src/server-stdio.js. -/
inductive Wire where
  | success (id : Int) (result : RpcResult)
  | error (id : Int) (code : Int) (message : String)
deriving DecidableEq, Repr

/-- Discriminant: is this envelope a success response. -/
def Wire.isSuccess : Wire → Bool
  | .success _ _ => true
  | .error _ _ _ => false

/-- src/server-stdio.js handleRequest: increment requestCount first, run the
dispatch switch, send the result via sendResponse, and map ANY thrown
exception to sendError(id, -32603, error.message). -/
def handleRequestStdio (r : Req) (id : Int) (tok ts : ℕ → String)
    (st : StdioState) : Wire × StdioState :=
  let st1 : StdioState := { st with requestCount := st.requestCount + 1 }
  match dispatchStdio r tok ts st1.history with
  | (.ok res, h1) => (.success id res, { st1 with history := h1 })
  | (.error m, h1) =>
      (.error id errorCodeInternalError m, { st1 with history := h1 })

/-- Raw (pre-validation) arguments of the src/server.ts calculate tool; each
field may be absent or of the wrong shape, in which case
CalculateInputSchema.parse throws. -/
structure RawCalcArgs where
  a : Option ℚ
  b : Option ℚ
  op : Option String
  stream : Option Bool
deriving DecidableEq, Repr

/-- src/types.ts CalculateInputSchema: a and b required numbers, op one of the
four operation literals. -/
def parseCalculateInput (r : RawCalcArgs) : Option (ℚ × ℚ × String) :=
  match r.a, r.b, r.op with
  | some a, some b, some op =>
      if op = "add" ∨ op = "subtract" ∨ op = "multiply" ∨ op = "divide" then
        some (a, b, op)
      else none
  | _, _, _ => none

/-- Tool reply of the src/server.ts calculate handler: either the structured
success content, or a text content flagged isError (the in-handler catch). -/
inductive ToolOutcome where
  | success (value : ℚ) (calculationId : String) (timestampStr : String)
  | errorContent (text : String)
deriving DecidableEq, Repr

/-- Globals of src/server.ts: Map-backed history and request counter. -/
structure ServerTsState where
  history : List (String × HistoryEntry)
  requestCount : ℕ
deriving DecidableEq, Repr

/-- src/server.ts calculate handler: CalculateInputSchema.parse(args) runs
BEFORE requestCount++, so a schema-violating request leaves the counter
untouched and escapes as a validation error; on success the entry is put in
the Map and the oldest key is deleted when the size exceeds the limit; a
calculation error is caught and returned as isError text content. -/
def calculateToolServerTs (args : RawCalcArgs) (idTok ts : String)
    (st : ServerTsState) : Except String ToolOutcome × ServerTsState :=
  match parseCalculateInput args with
  | none => (.error "invalid params", st)
  | some (a, b, op) =>
      let st1 : ServerTsState := { st with requestCount := st.requestCount + 1 }
      match performBasicCalculationJs op a b with
      | .error m => (.ok (.errorContent ("Error: " ++ m)), st1)
      | .ok r =>
          let e := createHistoryEntry op a (some b) r idTok ts
          let h1 := mapSet st1.history e.id e
          let h2 := if MAX_HISTORY < h1.length then mapDeleteOldest h1 else h1
          (.ok (.success r e.id e.timestamp), { st1 with history := h2 })

/-- Fixed id-token supply used for concrete evaluations: distinct tokens per
index, standing for distinct Math.random draws. -/
def tokGen (i : ℕ) : String := "id" ++ toString i

/-- Fixed timestamp supply used for concrete evaluations. -/
def tsGen (_ : ℕ) : String := "2024-01-01T00:00:00.000Z"

/-- A well-formed batch of 51 additions (i + 1 for i < 51). -/
def batch51 : List CalcReq :=
  (List.range 51).map (fun i => ⟨(i : ℚ), 1, "add"⟩)

/-- A well-formed batch of 101 additions, exceeding the declared maximum batch
size of 100. -/
def batch101 : List CalcReq :=
  (List.range 101).map (fun i => ⟨(i : ℚ), 1, "add"⟩)

/-- JavaScript String.prototype.trim whitespace test, restricted to the ASCII
whitespace characters (the only ones this repository can produce on its
stdin-framing path matters for). -/
def isWsChar (c : Char) : Bool :=
  c = ' ' || c = '\t' || c = '\n' || c = '\r' ||
  c = Char.ofNat 11 || c = Char.ofNat 12

/-- String.prototype.trim on a character list: drop whitespace from both
ends. -/
def trimChars (l : List Char) : List Char :=
  ((l.dropWhile isWsChar).reverse.dropWhile isWsChar).reverse

/-- The buffer.split of src/server-stdio.js stdin handler, with lines.pop():
the first component is the list of complete (newline-terminated) lines, the
second the trailing fragment kept in the buffer for the next chunk. -/
def splitLines : List Char → List (List Char) × List Char
  | [] => ([], [])
  | c :: rest =>
    if c = '\n' then
      ([] :: (splitLines rest).1, (splitLines rest).2)
    else
      match splitLines rest with
      | ([], b) => ([], c :: b)
      | (l :: ls, b) => ((c :: l) :: ls, b)

/-- The per-line filtering of the stdin handler: each complete line is
trimmed, and lines that are empty after trimming produce no output item. -/
def lineOutputs (ls : List (List Char)) : List (List Char) :=
  (ls.map trimChars).filter (fun l => !l.isEmpty)

/-- One invocation of the stdin data callback: append the chunk to the buffer,
split off the complete lines (emitting the trimmed non-empty ones) and keep
the trailing fragment as the new buffer. -/
def feedChunk (buf chunk : List Char) : List (List Char) × List Char :=
  let p := splitLines (buf ++ chunk)
  (lineOutputs p.1, p.2)

/-- Feeding a whole sequence of chunks through the framer, concatenating the
emitted line texts, starting from the given buffer. -/
def runFramer : List Char → List (List Char) → List (List Char) × List Char
  | buf, [] => ([], buf)
  | buf, chunk :: rest =>
    let p := feedChunk buf chunk
    let q := runFramer p.2 rest
    (p.1 ++ q.1, q.2)

/-- Lexicographic comparison of character lists by code point, the behaviour
of localeCompare on the ISO-8601 timestamp strings this repository compares
(ASCII digits, dashes and colons collate identically in every locale). -/
def lexLeB : List Char → List Char → Bool
  | [], _ => true
  | _ :: _, [] => false
  | a :: as, b :: bs =>
      if a < b then true else if b < a then false else lexLeB as bs

/-- String comparison used for sorting history entries newest-first. -/
def tsLeB (s t : String) : Bool := lexLeB s.data t.data

/-- The comparator of the history listers (annotated variant and
src/server.ts): sort((a, b) => b.timestamp.localeCompare(a.timestamp)),
i.e. descending by timestamp. -/
def histDescLe (x y : HistoryEntry) : Prop :=
  tsLeB y.timestamp x.timestamp = true

instance (x y : HistoryEntry) : Decidable (histDescLe x y) :=
  inferInstanceAs (Decidable (tsLeB y.timestamp x.timestamp = true))

/-- The sort step of the history resource lister (a stable comparator sort,
as JavaScript Array.prototype.sort is). -/
def sortHistoryDesc (h : List HistoryEntry) : List HistoryEntry :=
  h.insertionSort histDescLe

/-- From the annotated server variant: LIMITS.HISTORY_DISPLAY_LIMIT. -/
def HISTORY_DISPLAY_LIMIT : ℕ := 50

/-- The entries selected by the history lister: sorted newest-first, sliced
to the display limit. -/
def listHistoryEntries (h : List HistoryEntry) : List HistoryEntry :=
  (sortHistoryDesc h).take HISTORY_DISPLAY_LIMIT

/-- One resource descriptor produced by the lister (new Date(...).
toLocaleString() in the description is modelled by the raw timestamp text;
only its functional dependence on the entry matters here). -/
structure ResourceDesc where
  uri : String
  name : String
  description : String
  mimeType : String
deriving DecidableEq, Repr

/-- The map step of the history lister. -/
def entryToResource (c : HistoryEntry) : ResourceDesc :=
  { uri := "calculator://history/" ++ c.id
    name := c.expression
    description := "Calculation performed at " ++ c.timestamp
    mimeType := "application/json" }

/-- The complete list callback of the calculation-history ResourceTemplate. -/
def listHistoryResource (h : List HistoryEntry) : List ResourceDesc :=
  (listHistoryEntries h).map entryToResource

/-- Server state owning the array-backed history store (annotated variant). -/
structure McpArrayState where
  history : List HistoryEntry
deriving DecidableEq, Repr

/-- The history list operation as a state transformer: reading the resource
performs no mutation of the store. -/
def readHistoryListOp (st : McpArrayState) : List ResourceDesc × McpArrayState :=
  (listHistoryResource st.history, st)

/-- Totality of the lexicographic comparison (needed for sortedness of the
comparator sort). -/
instance : IsTotal HistoryEntry histDescLe := by
  constructor
  suffices htot : ∀ a b : List Char, lexLeB a b = true ∨ lexLeB b a = true by
    intro x y
    exact htot y.timestamp.data x.timestamp.data
  intro a
  induction a with
  | nil => intro b; left; rfl
  | cons x xs ih =>
    intro b
    cases b with
    | nil => right; rfl
    | cons y ys =>
      rcases lt_trichotomy x y with hlt | heq | hgt
      · left; simp [lexLeB, hlt]
      · subst heq
        rcases ih ys with h | h
        · left; simp [lexLeB, lt_irrefl, h]
        · right; simp [lexLeB, lt_irrefl, h]
      · right; simp [lexLeB, hgt]

/-- Transitivity of the lexicographic comparison. -/
instance : IsTrans HistoryEntry histDescLe := by
  constructor
  suffices htr : ∀ a b c : List Char,
      lexLeB a b = true → lexLeB b c = true → lexLeB a c = true by
    intro x y z h1 h2
    exact htr z.timestamp.data y.timestamp.data x.timestamp.data h2 h1
  intro a
  induction a with
  | nil => intro b c _ _; rfl
  | cons x xs ih =>
    intro b c h1 h2
    cases b with
    | nil => simp [lexLeB] at h1
    | cons y ys =>
      cases c with
      | nil => simp [lexLeB] at h2
      | cons z zs =>
        simp only [lexLeB] at h1 h2 ⊢
        by_cases hxy : x < y
        · by_cases hyz : y < z
          · simp [lt_trans hxy hyz]
          · by_cases hzy : z < y
            · simp [hyz, hzy] at h2
            · have hyzeq : y = z := le_antisymm (not_lt.mp hzy) (not_lt.mp hyz)
              subst hyzeq
              simp [hxy]
        · by_cases hyx : y < x
          · simp [hxy, hyx] at h1
          · have hxyeq : x = y := le_antisymm (not_lt.mp hyx) (not_lt.mp hxy)
            subst hxyeq
            simp only [lt_irrefl, if_false] at h1
            by_cases hyz : x < z
            · simp [hyz]
            · by_cases hzy : z < x
              · simp [hyz, hzy] at h2
              · have hxzeq : x = z := le_antisymm (not_lt.mp hzy) (not_lt.mp hyz)
                subst hxzeq
                simp only [lt_irrefl, if_false] at h2 ⊢
                exact ih ys zs h1 h2

/-- A history entry created from one concrete Math.random draw whose derived
token is k3j9x. -/
def e1ex : HistoryEntry :=
  createHistoryEntry "add" 1 (some 2) 3 "k3j9x" "2024-01-01T00:00:00.001Z"

/-- A second, different history entry created later from another draw that
happens to derive the same token k3j9x (nothing in the source prevents
this). -/
def e2ex : HistoryEntry :=
  createHistoryEntry "subtract" 5 (some 2) 3 "k3j9x" "2024-01-01T00:00:00.002Z"

/-- Claim C6 counterexample: a multiply whose exact product (2 to the 60th)
lies far outside the safely representable range (above 2 to the 53rd minus 1,
the JavaScript max safe integer) is answered with a plain success value, not
with any overflow error: performBasicCalculation has no range check at all. -/
theorem multiply_overflow_unchecked_counterexample :
    performBasicCalculation "multiply" ((2 : ℚ) ^ 30) ((2 : ℚ) ^ 30)
        = Except.ok ((2 : ℚ) ^ 60)
    ∧ ((2 : ℚ) ^ 53 - 1) < (2 : ℚ) ^ 60 := by
  constructor
  · simp only [performBasicCalculation]
    norm_num
    decide
  · norm_num

/-- Claim C6 (amended): the multiply branch of performBasicCalculation
returns the raw product for every pair of operands; no overflow error is ever
produced on this path (the only magnitude guard in the program is the
factorial bound of advanced_calculate). -/
theorem multiply_returns_raw_product (a b : ℚ) :
    performBasicCalculation "multiply" a b = Except.ok (a * b) := by
  simp [performBasicCalculation]

/-- Claim C3: dividing by zero never crashes the handler, but the wire shape
diverges from the claim: the hand-rolled stdio server answers with the
internal-error code -32603 (message exactly Division by zero), while the
annotated SDK variant answers with the invalid-params code but with the
message prefixed by the calculate handler's catch block. -/
theorem divide_by_zero_error_shape :
    (handleRequestStdio (Req.calculate 10 0 "divide") 2 tokGen tsGen
        ⟨[], 0⟩).1 = Wire.error 2 (-32603) "Division by zero"
    ∧ (calculateHandlerMcp 10 0 "divide" "id1" "2024-01-01T00:00:00.000Z"
        []).1 = Except.error
          ⟨errorCodeInvalidParams, "Calculation failed: Division by zero"⟩
    ∧ errorCodeInternalError = -32603 ∧ errorCodeInvalidParams = -32602 := by
  refine ⟨by decide, by decide, rfl, rfl⟩

/-- Claim C4: a request that makes the stdio handler raise an unexpected
internal TypeError (read_resource with no params member dereferences
params.uri) is answered on the wire with the raw V8 exception message,
verbatim, rather than an opaque internal-error message. -/
theorem internal_fault_message_on_wire :
    (handleRequestStdio Req.readResourceNoParams 9 tokGen tsGen ⟨[], 0⟩).1
      = Wire.error 9 (-32603)
          "Cannot read properties of undefined (reading 'uri')" := by
  decide

/-- Claim C5: a batch of 101 items sent to src/server-stdio.js is not
rejected: the response is a success envelope, all 101 items execute, and the
history store grows by 101 entries (handleBatchCalculate never checks the
declared maximum batch size of 100). -/
theorem oversized_batch_not_rejected :
    100 < batch101.length
    ∧ (handleRequestStdio (Req.batchCalculate batch101) 3 tokGen tsGen
        ⟨[], 0⟩).1.isSuccess = true
    ∧ (runBatchStdio batch101 0 tokGen tsGen []).1.length = 101
    ∧ (∀ o ∈ (runBatchStdio batch101 0 tokGen tsGen []).1,
        o.isSuccess = true)
    ∧ (runBatchStdio batch101 0 tokGen tsGen []).2.length = 101 := by
  decide

/-- Claim C1: after 51 successful calculations through the batch path of
src/server-stdio.js (distinct generated ids), the history store holds 51
entries, not min 51 50 = 50: that file enforces no capacity on the store. -/
theorem history_cap_unenforced_in_stdio :
    (∀ o ∈ (runBatchStdio batch51 0 tokGen tsGen []).1, o.isSuccess = true)
    ∧ (runBatchStdio batch51 0 tokGen tsGen []).1.length = 51
    ∧ (runBatchStdio batch51 0 tokGen tsGen []).2.length = 51
    ∧ ¬ (runBatchStdio batch51 0 tokGen tsGen []).2.length = min 51 50 := by
  decide

/-- Claim C7 counterexample: a calculate request whose arguments fail schema
validation (op = power is not in the declared enum) is dispatched, fails, and
leaves requestCount unchanged in src/server.ts, because the handler increments
the counter only after CalculateInputSchema.parse succeeds. -/
theorem validation_failure_not_counted :
    (calculateToolServerTs ⟨some 1, some 2, some "power", none⟩ "id1"
        "2024-01-01T00:00:00.000Z" ⟨[], 0⟩).2.requestCount = 0
    ∧ (calculateToolServerTs ⟨some 1, some 2, some "power", none⟩ "id1"
        "2024-01-01T00:00:00.000Z" ⟨[], 0⟩).1
      = Except.error "invalid params" := by
  decide

/-- Claim C7 (amended): in the hand-rolled stdio server every dispatched
request increments requestCount by exactly one, whatever its outcome; in
src/server.ts the calculate handler increments it exactly once per invocation
that passes parameter validation and not at all when validation fails. In
particular the counter never decreases. -/
theorem requestCount_increment_policy :
    (∀ (r : Req) (id : Int) (tok ts : ℕ → String) (st : StdioState),
        (handleRequestStdio r id tok ts st).2.requestCount
          = st.requestCount + 1)
    ∧ (∀ (args : RawCalcArgs) (idTok ts : String) (st : ServerTsState),
        (calculateToolServerTs args idTok ts st).2.requestCount
          = st.requestCount +
              (match parseCalculateInput args with
               | some _ => 1
               | none => 0)) := by
  constructor
  · intro r id tok ts st
    unfold handleRequestStdio
    rcases hd : dispatchStdio r tok ts
        ({ st with requestCount := st.requestCount + 1} : StdioState).history
      with ⟨e, h1⟩
    cases e <;> simp [hd]
  · intro args idTok ts st
    unfold calculateToolServerTs
    rcases hp : parseCalculateInput args with _ | ⟨a, b, op⟩
    · simp
    · rcases he : performBasicCalculationJs op a b with m | r <;> simp [he]

/-- Claim C10 counterexample: two distinct history entries created from two
Math.random draws deriving the same token share one id; after both are
appended to the array store, looking the id up yields the first entry, so the
second entry is not individually addressable. -/
theorem duplicate_id_shadowing :
    e1ex ≠ e2ex ∧ e1ex.id = e2ex.id
    ∧ findById (addToHistory (addToHistory [] e1ex) e2ex) e2ex.id = some e1ex
    ∧ ¬ findById (addToHistory (addToHistory [] e1ex) e2ex) e2ex.id
        = some e2ex := by
  decide

/-- Claim C10 (amended): ids carry no uniqueness guarantee of their own, but
whenever the generated token differs from every id already in the array
store, the appended entry is addressable by its id, and the append displaces
existing entries only through FIFO eviction of the oldest entry at
capacity. -/
theorem fresh_id_entry_addressable (h : List HistoryEntry) (e : HistoryEntry)
    (hfresh : ∀ x ∈ h, x.id ≠ e.id) :
    findById (addToHistory h e) e.id = some e
    ∧ (h.length < MAX_HISTORY → addToHistory h e = h ++ [e])
    ∧ (MAX_HISTORY ≤ h.length → addToHistory h e = (h ++ [e]).tail) := by
  refine ⟨?_, ?_, ?_⟩
  · unfold addToHistory findById
    by_cases hc : MAX_HISTORY < (h ++ [e]).length
    · simp only [if_pos hc]
      cases h with
      | nil => simp [MAX_HISTORY] at hc
      | cons a t =>
        have htail : ((a :: t) ++ [e]).tail = t ++ [e] := rfl
        rw [htail, List.find?_append]
        have hnone : t.find? (fun x => x.id == e.id) = none := by
          apply List.find?_eq_none.mpr
          intro x hx
          simp [hfresh x (List.mem_cons_of_mem a hx)]
        rw [hnone]
        simp [List.find?]
    · simp only [if_neg hc]
      rw [List.find?_append]
      have hnone : h.find? (fun x => x.id == e.id) = none := by
        apply List.find?_eq_none.mpr
        intro x hx
        simp [hfresh x hx]
      rw [hnone]
      simp [List.find?]
  · intro hlt
    have h50 : MAX_HISTORY = 50 := rfl
    rw [h50] at hlt
    unfold addToHistory
    rw [if_neg (by rw [h50]; simp only [List.length_append,
      List.length_cons, List.length_nil]; omega)]
  · intro hge
    have h50 : MAX_HISTORY = 50 := rfl
    rw [h50] at hge
    unfold addToHistory
    rw [if_pos (by rw [h50]; simp only [List.length_append,
      List.length_cons, List.length_nil]; omega)]

/-- Witness for the amended claim C10 at a concrete store and entry. -/
theorem fresh_id_entry_addressable_witness :
    (∀ x ∈ ([] : List HistoryEntry), x.id ≠ e1ex.id)
    ∧ (findById (addToHistory [] e1ex) e1ex.id = some e1ex
       ∧ (([] : List HistoryEntry).length < MAX_HISTORY →
            addToHistory [] e1ex = [] ++ [e1ex])
       ∧ (MAX_HISTORY ≤ ([] : List HistoryEntry).length →
            addToHistory [] e1ex = ([] ++ [e1ex]).tail)) :=
  ⟨by simp, fresh_id_entry_addressable [] e1ex (by simp)⟩

/-- Success discriminant of performBasicCalculation on a schema-valid
operation: the only business-rule failure among the four declared operations
is division by zero. -/
theorem performBasicCalculation_isOk (op : String) (a b : ℚ)
    (hop : op = "add" ∨ op = "subtract" ∨ op = "multiply" ∨ op = "divide") :
    (performBasicCalculation op a b).isOk = !(op == "divide" && b == 0) := by
  rcases hop with h | h | h | h <;> subst h
  · simp [performBasicCalculation, Except.isOk, Except.toBool]
  · simp [performBasicCalculation, Except.isOk, Except.toBool]
  · simp [performBasicCalculation, Except.isOk, Except.toBool]
  · by_cases hb : b = 0
    · subst hb
      simp [performBasicCalculation, Except.isOk, Except.toBool]
    · have hb0 : (b == 0) = false := by simp [hb]
      simp [performBasicCalculation, hb, hb0, Except.isOk, Except.toBool]

/-- Same discriminant for the plain-Error variant of the four-way switch. -/
theorem performBasicCalculationJs_isOk (op : String) (a b : ℚ)
    (hop : op = "add" ∨ op = "subtract" ∨ op = "multiply" ∨ op = "divide") :
    (performBasicCalculationJs op a b).isOk = !(op == "divide" && b == 0) := by
  rcases hop with h | h | h | h <;> subst h
  · simp [performBasicCalculationJs, Except.isOk, Except.toBool]
  · simp [performBasicCalculationJs, Except.isOk, Except.toBool]
  · simp [performBasicCalculationJs, Except.isOk, Except.toBool]
  · by_cases hb : b = 0
    · subst hb
      simp [performBasicCalculationJs, Except.isOk, Except.toBool]
    · have hb0 : (b == 0) = false := by simp [hb]
      simp [performBasicCalculationJs, hb, hb0, Except.isOk, Except.toBool]

/-- Shape of the annotated variant's batch loop: one outcome per input item,
in input order, successful exactly where the item violates no business
rule. -/
theorem runBatchMcp_shape (calcs : List CalcReq) (tok ts : ℕ → String) :
    ∀ (i : ℕ) (h : List HistoryEntry),
      (∀ c ∈ calcs,
        c.op = "add" ∨ c.op = "subtract" ∨ c.op = "multiply" ∨
          c.op = "divide") →
      (runBatchMcp calcs i tok ts h).1.length = calcs.length
      ∧ (runBatchMcp calcs i tok ts h).1.map BatchOutcome.isSuccess
          = calcs.map (fun c => !(c.op == "divide" && c.b == 0)) := by
  induction calcs with
  | nil => intro i h _; simp [runBatchMcp]
  | cons c rest ih =>
    intro i h hwf
    have hc := hwf c (List.mem_cons_self c rest)
    have hrest := fun x hx => hwf x (List.mem_cons_of_mem c hx)
    have hok := performBasicCalculation_isOk c.op c.a c.b hc
    rcases he : performBasicCalculation c.op c.a c.b with err | r
    · rw [he] at hok
      simp only [Except.isOk, Except.toBool] at hok
      have hfail : (c.op == "divide" && c.b == 0) = true := by
        cases hcb : (c.op == "divide" && c.b == 0)
        · rw [hcb] at hok; simp at hok
        · rfl
      obtain ⟨ihl, ihm⟩ := ih (i + 1) h hrest
      refine ⟨by simp [runBatchMcp, he, ihl], ?_⟩
      simp [runBatchMcp, he, BatchOutcome.isSuccess, ihm, hfail]
      simpa only [Bool.and_eq_true, beq_iff_eq] using hfail
    · rw [he] at hok
      simp only [Except.isOk, Except.toBool] at hok
      have hsucc : (c.op == "divide" && c.b == 0) = false := by
        cases hcb : (c.op == "divide" && c.b == 0)
        · rfl
        · rw [hcb] at hok; simp at hok
      obtain ⟨ihl, ihm⟩ := ih (i + 1)
        (addToHistory h (createHistoryEntry c.op c.a (some c.b) r
          (tok i) (ts i))) hrest
      refine ⟨by simp [runBatchMcp, he, ihl], ?_⟩
      simp [runBatchMcp, he, BatchOutcome.isSuccess, ihm, hsucc]
      rcases Decidable.em (c.op = "divide") with hd | hd
      · right
        intro hb0
        rw [hd] at hsucc
        simp [hb0] at hsucc
      · left
        exact hd

/-- Shape of the src/server-stdio.js batch loop: identical structure over the
Map-backed store. -/
theorem runBatchStdio_shape (calcs : List CalcReq) (tok ts : ℕ → String) :
    ∀ (i : ℕ) (m : List (String × HistoryEntry)),
      (∀ c ∈ calcs,
        c.op = "add" ∨ c.op = "subtract" ∨ c.op = "multiply" ∨
          c.op = "divide") →
      (runBatchStdio calcs i tok ts m).1.length = calcs.length
      ∧ (runBatchStdio calcs i tok ts m).1.map BatchOutcome.isSuccess
          = calcs.map (fun c => !(c.op == "divide" && c.b == 0)) := by
  induction calcs with
  | nil => intro i m _; simp [runBatchStdio]
  | cons c rest ih =>
    intro i m hwf
    have hc := hwf c (List.mem_cons_self c rest)
    have hrest := fun x hx => hwf x (List.mem_cons_of_mem c hx)
    have hok := performBasicCalculationJs_isOk c.op c.a c.b hc
    rcases he : performBasicCalculationJs c.op c.a c.b with msg | r
    · rw [he] at hok
      simp only [Except.isOk, Except.toBool] at hok
      have hfail : (c.op == "divide" && c.b == 0) = true := by
        cases hcb : (c.op == "divide" && c.b == 0)
        · rw [hcb] at hok; simp at hok
        · rfl
      obtain ⟨ihl, ihm⟩ := ih (i + 1) m hrest
      refine ⟨by simp [runBatchStdio, he, ihl], ?_⟩
      simp [runBatchStdio, he, BatchOutcome.isSuccess, ihm, hfail]
      simpa only [Bool.and_eq_true, beq_iff_eq] using hfail
    · rw [he] at hok
      simp only [Except.isOk, Except.toBool] at hok
      have hsucc : (c.op == "divide" && c.b == 0) = false := by
        cases hcb : (c.op == "divide" && c.b == 0)
        · rfl
        · rw [hcb] at hok; simp at hok
      obtain ⟨ihl, ihm⟩ := ih (i + 1)
        (mapSet m (createHistoryEntry c.op c.a (some c.b) r
          (tok i) (ts i)).id (createHistoryEntry c.op c.a (some c.b) r
          (tok i) (ts i))) hrest
      refine ⟨by simp [runBatchStdio, he, ihl], ?_⟩
      simp [runBatchStdio, he, BatchOutcome.isSuccess, ihm, hsucc]
      rcases Decidable.em (c.op = "divide") with hd | hd
      · right
        intro hb0
        rw [hd] at hsucc
        simp [hb0] at hsucc
      · left
        exact hd

/-- Claim C2: a well-formed batch within the size bound always yields a
SUCCESS response (in both batch handlers: the annotated SDK one and the
hand-rolled stdio one) carrying exactly one outcome per input item in input
order, where an item is marked failed exactly when it violates a business
rule, i.e. exactly the divide-by-zero items among the four schema-declared
operations. -/
theorem batch_mixed_outcomes (calcs : List CalcReq) (tok ts : ℕ → String)
    (h : List HistoryEntry) (m : List (String × HistoryEntry))
    (hwf : ∀ c ∈ calcs,
      c.op = "add" ∨ c.op = "subtract" ∨ c.op = "multiply" ∨
        c.op = "divide")
    (hsize : 1 ≤ calcs.length ∧ calcs.length ≤ 100) :
    (batchCalculateHandlerMcp calcs tok ts h
        = (Except.ok (runBatchMcp calcs 0 tok ts h).1,
           (runBatchMcp calcs 0 tok ts h).2))
    ∧ (runBatchMcp calcs 0 tok ts h).1.length = calcs.length
    ∧ (runBatchMcp calcs 0 tok ts h).1.map BatchOutcome.isSuccess
        = calcs.map (fun c => !(c.op == "divide" && c.b == 0))
    ∧ (dispatchStdio (Req.batchCalculate calcs) tok ts m).1
        = Except.ok (RpcResult.batch (runBatchStdio calcs 0 tok ts m).1)
    ∧ (runBatchStdio calcs 0 tok ts m).1.length = calcs.length
    ∧ (runBatchStdio calcs 0 tok ts m).1.map BatchOutcome.isSuccess
        = calcs.map (fun c => !(c.op == "divide" && c.b == 0)) := by
  obtain ⟨hl1, hm1⟩ := runBatchMcp_shape calcs tok ts 0 h hwf
  obtain ⟨hl2, hm2⟩ := runBatchStdio_shape calcs tok ts 0 m hwf
  exact ⟨rfl, hl1, hm1, rfl, hl2, hm2⟩

/-- Witness for claim C2 at a concrete mixed batch: one divide-by-zero item
among otherwise valid items. -/
theorem batch_mixed_outcomes_witness :
    ((∀ c ∈ [(⟨5, 3, "add"⟩ : CalcReq), ⟨10, 0, "divide"⟩, ⟨20, 4, "divide"⟩],
        c.op = "add" ∨ c.op = "subtract" ∨ c.op = "multiply" ∨
          c.op = "divide")
      ∧ (1 ≤ ([(⟨5, 3, "add"⟩ : CalcReq), ⟨10, 0, "divide"⟩,
            ⟨20, 4, "divide"⟩] : List CalcReq).length
          ∧ ([(⟨5, 3, "add"⟩ : CalcReq), ⟨10, 0, "divide"⟩,
            ⟨20, 4, "divide"⟩] : List CalcReq).length ≤ 100))
    ∧ ((batchCalculateHandlerMcp
          [⟨5, 3, "add"⟩, ⟨10, 0, "divide"⟩, ⟨20, 4, "divide"⟩] tokGen tsGen []
          = (Except.ok (runBatchMcp
              [⟨5, 3, "add"⟩, ⟨10, 0, "divide"⟩, ⟨20, 4, "divide"⟩] 0 tokGen
              tsGen []).1,
             (runBatchMcp [⟨5, 3, "add"⟩, ⟨10, 0, "divide"⟩, ⟨20, 4, "divide"⟩]
              0 tokGen tsGen []).2))
      ∧ (runBatchMcp [⟨5, 3, "add"⟩, ⟨10, 0, "divide"⟩, ⟨20, 4, "divide"⟩] 0
          tokGen tsGen []).1.length
            = ([(⟨5, 3, "add"⟩ : CalcReq), ⟨10, 0, "divide"⟩,
                ⟨20, 4, "divide"⟩] : List CalcReq).length
      ∧ (runBatchMcp [⟨5, 3, "add"⟩, ⟨10, 0, "divide"⟩, ⟨20, 4, "divide"⟩] 0
          tokGen tsGen []).1.map BatchOutcome.isSuccess
            = ([(⟨5, 3, "add"⟩ : CalcReq), ⟨10, 0, "divide"⟩,
                ⟨20, 4, "divide"⟩] : List CalcReq).map
                (fun c => !(c.op == "divide" && c.b == 0))
      ∧ (dispatchStdio (Req.batchCalculate
          [⟨5, 3, "add"⟩, ⟨10, 0, "divide"⟩, ⟨20, 4, "divide"⟩]) tokGen tsGen
          []).1
            = Except.ok (RpcResult.batch (runBatchStdio
                [⟨5, 3, "add"⟩, ⟨10, 0, "divide"⟩, ⟨20, 4, "divide"⟩] 0 tokGen
                tsGen []).1)
      ∧ (runBatchStdio [⟨5, 3, "add"⟩, ⟨10, 0, "divide"⟩, ⟨20, 4, "divide"⟩] 0
          tokGen tsGen []).1.length
            = ([(⟨5, 3, "add"⟩ : CalcReq), ⟨10, 0, "divide"⟩,
                ⟨20, 4, "divide"⟩] : List CalcReq).length
      ∧ (runBatchStdio [⟨5, 3, "add"⟩, ⟨10, 0, "divide"⟩, ⟨20, 4, "divide"⟩] 0
          tokGen tsGen []).1.map BatchOutcome.isSuccess
            = ([(⟨5, 3, "add"⟩ : CalcReq), ⟨10, 0, "divide"⟩,
                ⟨20, 4, "divide"⟩] : List CalcReq).map
                (fun c => !(c.op == "divide" && c.b == 0))) :=
  ⟨⟨by decide, by decide⟩,
   batch_mixed_outcomes [⟨5, 3, "add"⟩, ⟨10, 0, "divide"⟩, ⟨20, 4, "divide"⟩]
     tokGen tsGen [] [] (by decide) (by decide)⟩

/-- Splitting a concatenation: the complete lines of s ++ t are the complete
lines of s followed by the complete lines of the trailing fragment of s
prepended to t, and the final fragment comes from that second split. This is
the algebraic heart of the chunking invariance of the stdin framer. -/
theorem splitLines_append (s t : List Char) :
    splitLines (s ++ t) =
      ((splitLines s).1 ++ (splitLines ((splitLines s).2 ++ t)).1,
       (splitLines ((splitLines s).2 ++ t)).2) := by
  induction s with
  | nil => simp [splitLines]
  | cons c s2 ih =>
    by_cases hc : c = '\n'
    · subst hc
      rw [List.cons_append]
      show splitLines ('\n' :: (s2 ++ t)) = _
      rw [show splitLines ('\n' :: (s2 ++ t))
            = ([] :: (splitLines (s2 ++ t)).1, (splitLines (s2 ++ t)).2) by
          simp [splitLines]]
      rw [show splitLines ('\n' :: s2)
            = ([] :: (splitLines s2).1, (splitLines s2).2) by
          simp [splitLines]]
      rw [ih]
      simp
    · rw [List.cons_append]
      rcases h2 : splitLines s2 with ⟨ls2, b2⟩
      have hstep : ∀ (u : List Char),
          splitLines (c :: u) =
            (match splitLines u with
             | ([], b) => ([], c :: b)
             | (l :: ls, b) => ((c :: l) :: ls, b)) := by
        intro u
        simp [splitLines, hc]
      rw [hstep (s2 ++ t), hstep s2, h2, ih, h2]
      cases ls2 with
      | nil =>
        simp only [List.nil_append]
        rcases hB : splitLines (b2 ++ t) with ⟨bl, bb⟩
        cases bl with
        | nil =>
          simp only [List.cons_append]
          rw [hstep (b2 ++ t), hB]
        | cons x xs =>
          simp only [List.cons_append]
          rw [hstep (b2 ++ t), hB]
      | cons l ls =>
        rcases hB : splitLines (b2 ++ t) with ⟨bl, bb⟩
        simp

/-- The trailing fragment kept in the buffer never contains a newline. -/
theorem newline_not_mem_splitLines_snd (s : List Char) :
    '\n' ∉ (splitLines s).2 := by
  induction s with
  | nil => simp [splitLines]
  | cons c s2 ih =>
    by_cases hc : c = '\n'
    · subst hc
      simp [splitLines, ih]
    · rcases h2 : splitLines s2 with ⟨ls2, b2⟩
      rw [h2] at ih
      cases ls2 with
      | nil =>
        simp [splitLines, hc, h2]
        exact ⟨fun he => hc he.symm, ih⟩
      | cons l ls =>
        simp [splitLines, hc, h2]
        exact ih

/-- A newline-free text splits into no complete line and itself as the
fragment. -/
theorem splitLines_of_no_newline (s : List Char) (h : '\n' ∉ s) :
    splitLines s = ([], s) := by
  induction s with
  | nil => simp [splitLines]
  | cons c s2 ih =>
    have hc : ¬ c = '\n' := fun he => h (he ▸ List.mem_cons_self c s2)
    have h2 : '\n' ∉ s2 := fun hm => h (List.mem_cons_of_mem c hm)
    simp [splitLines, hc, ih h2]

/-- Trim-and-filter distributes over concatenation of line lists. -/
theorem lineOutputs_append (a b : List (List Char)) :
    lineOutputs (a ++ b) = lineOutputs a ++ lineOutputs b := by
  simp [lineOutputs]

/-- Generalized chunking invariance: from any newline-free buffer, feeding
the chunks one by one emits exactly what feeding their concatenation at once
would, and leaves the same trailing fragment. -/
theorem runFramer_join (chunks : List (List Char)) :
    ∀ (buf : List Char), splitLines buf = ([], buf) →
      runFramer buf chunks = feedChunk buf chunks.flatten := by
  induction chunks with
  | nil =>
    intro buf hbuf
    simp [runFramer, feedChunk, hbuf, lineOutputs]
  | cons chunk rest ih =>
    intro buf hbuf
    have hinv : splitLines (splitLines (buf ++ chunk)).2
        = ([], (splitLines (buf ++ chunk)).2) :=
      splitLines_of_no_newline _ (newline_not_mem_splitLines_snd _)
    have hrec := ih (splitLines (buf ++ chunk)).2 hinv
    show ((feedChunk buf chunk).1 ++ (runFramer (feedChunk buf chunk).2 rest).1,
          (runFramer (feedChunk buf chunk).2 rest).2)
        = feedChunk buf (chunk ++ rest.flatten)
    rw [show (feedChunk buf chunk).2 = (splitLines (buf ++ chunk)).2 from rfl]
    rw [hrec]
    simp only [feedChunk]
    rw [show buf ++ (chunk ++ rest.flatten) = (buf ++ chunk) ++ rest.flatten by
      simp]
    rw [splitLines_append (buf ++ chunk) rest.flatten]
    simp [lineOutputs_append]

/-- Claim C8: for every partition of the input into chunks, the stdin line
framer of src/server-stdio.js emits exactly the trimmed non-empty line texts
it would emit for the whole input delivered as one chunk, and carries the
same incomplete trailing fragment. -/
theorem framer_chunking_equivalence (chunks : List (List Char)) :
    runFramer [] chunks = feedChunk [] chunks.flatten :=
  runFramer_join chunks [] rfl

/-- Size evolution of one FIFO append in the annotated variant's array
store. -/
theorem addToHistory_length (h : List HistoryEntry) (e : HistoryEntry) :
    (addToHistory h e).length
      = if MAX_HISTORY ≤ h.length then h.length else h.length + 1 := by
  have h50 : MAX_HISTORY = 50 := rfl
  have hlen1 : (h ++ [e]).length = h.length + 1 := by simp
  by_cases hge : MAX_HISTORY ≤ h.length
  · have hcond : MAX_HISTORY < (h ++ [e]).length := by
      rw [hlen1]
      rw [h50] at hge ⊢
      omega
    rw [if_pos hge]
    simp only [addToHistory]
    rw [if_pos hcond]
    simp only [List.length_tail, hlen1]
    omega
  · have hcond : ¬ MAX_HISTORY < (h ++ [e]).length := by
      rw [hlen1]
      rw [h50] at hge ⊢
      omega
    rw [if_neg hge]
    simp only [addToHistory]
    rw [if_neg hcond]
    exact hlen1

/-- P3-style capacity invariant of the annotated variant's store: starting
within capacity, after appending any number of entries the store holds
min(previous + appended, 50) entries; from an empty store, min(N, 50). -/
theorem history_store_min_cap (es : List HistoryEntry) :
    ∀ h : List HistoryEntry, h.length ≤ MAX_HISTORY →
      (es.foldl addToHistory h).length
        = min (h.length + es.length) MAX_HISTORY := by
  induction es with
  | nil =>
    intro h hh
    have h50 : MAX_HISTORY = 50 := rfl
    simp only [List.foldl_nil, List.length_nil, Nat.add_zero]
    rw [h50] at hh ⊢
    omega
  | cons e es ih =>
    intro h hh
    have h50 : MAX_HISTORY = 50 := rfl
    have hlen := addToHistory_length h e
    by_cases hge : MAX_HISTORY ≤ h.length
    · rw [if_pos hge] at hlen
      have hle : (addToHistory h e).length ≤ MAX_HISTORY := by
        rw [hlen]
        exact hh
      have hrec := ih (addToHistory h e) hle
      simp only [List.foldl_cons, List.length_cons]
      rw [hrec, hlen]
      rw [h50] at hge hh ⊢
      omega
    · rw [if_neg hge] at hlen
      have hle : (addToHistory h e).length ≤ MAX_HISTORY := by
        rw [hlen]
        rw [h50] at hge ⊢
        omega
      have hrec := ih (addToHistory h e) hle
      simp only [List.foldl_cons, List.length_cons]
      rw [hrec, hlen]
      rw [h50] at hge hh ⊢
      omega

/-- FIFO content invariant of the annotated variant's store: the retained
entries always form a suffix of the full append sequence, i.e. exactly the
most recently appended entries are kept. -/
theorem history_store_fifo_suffix (es : List HistoryEntry) :
    ∀ h : List HistoryEntry,
      List.IsSuffix (es.foldl addToHistory h) (h ++ es) := by
  induction es with
  | nil => intro h; simp
  | cons e es ih =>
    intro h
    have h1 := ih (addToHistory h e)
    have h2 : List.IsSuffix (addToHistory h e) (h ++ [e]) := by
      simp only [addToHistory]
      by_cases hc : MAX_HISTORY < (h ++ [e]).length
      · rw [if_pos hc]
        exact List.tail_suffix _
      · rw [if_neg hc]
    obtain ⟨w, hw⟩ := h2
    have h3 : List.IsSuffix ((addToHistory h e) ++ es) ((h ++ [e]) ++ es) :=
      ⟨w, by rw [← List.append_assoc, hw]⟩
    have h4 := h1.trans h3
    rw [show (h ++ [e]) ++ es = h ++ (e :: es) by simp] at h4
    simpa using h4

/-- Claim C9: the history resource lister returns at most 50 entries, ordered
newest-first by timestamp (descending string order, which on ISO-8601
timestamps is reverse-chronological); the resource descriptors are a pure map
of those entries; and listing is a read-only operation, so two consecutive
listings with no intervening mutation return the same list. -/
theorem history_listing_properties (h : List HistoryEntry)
    (st : McpArrayState) :
    (listHistoryResource h).length ≤ 50
    ∧ (listHistoryEntries h).length ≤ 50
    ∧ List.Pairwise histDescLe (listHistoryEntries h)
    ∧ listHistoryResource h = (listHistoryEntries h).map entryToResource
    ∧ (readHistoryListOp st).2 = st
    ∧ (readHistoryListOp ((readHistoryListOp st).2)).1
        = (readHistoryListOp st).1 := by
  refine ⟨?_, ?_, ?_, rfl, rfl, rfl⟩
  · simp only [listHistoryResource, List.length_map, listHistoryEntries,
      HISTORY_DISPLAY_LIMIT, List.length_take]
    omega
  · simp only [listHistoryEntries, HISTORY_DISPLAY_LIMIT, List.length_take]
    omega
  · have hs := List.sorted_insertionSort histDescLe h
    exact List.Pairwise.sublist (List.take_sublist _ _) hs
